import Mathlib

/-!
# vaultapi: the AppRole binding (`auth_approle.go`)

A shallow embedding of `AppRoleOptions`, `ListAppRoles` and `CreateAppRole`.

* A Go `string` is a sequence of bytes (`GoString`); it need not be valid UTF-8.
* The library routines the two operations call (`json.Marshal`, `fmt.Sprintf`,
  `errors.Wrap`/`Wrapf`, `sort.Strings`, `utf8.DecodeRuneInString`,
  `strconv.Quote`) are embedded from their documented behaviour.
* `json.Marshal` is embedded as the JSON document its output denotes (an
  ordered list of members), not as the bytes of one particular rendering.
* The transport (`c.post`, `c.list`) and the logger are collaborators: the
  transport is the fields of `client`, and every call made is recorded.
* The tables of `strconv.IsPrint` for runes above U+00FF are a parameter
  (`tbl`) of everything that formats with `%q`.
* Bit operations of the Go sources are written with `/` and `%` on `Nat`.
-/

namespace vaultapi

/-! ## Bytes, strings, UTF-8 -/

/-- A Go `byte`. -/
abbrev Byte := Fin 256

/-- A Go `string`: a sequence of bytes. -/
abbrev GoString := List Byte

/-- The conversion `byte(n)`: the low eight bits of `n`. -/
def byte (n : Nat) : Byte := ⟨n % 256, Nat.mod_lt n (by decide)⟩

/-- The rune `utf8.RuneError`, U+FFFD. -/
def RuneError : Nat := 0xFFFD

/-- The function `utf8.AppendRune(nil, r)`: the UTF-8 encoding of the rune `r`;
a surrogate or a value above U+10FFFF is encoded as U+FFFD. -/
def appendRune (r : Nat) : GoString :=
  if r < 0x80 then [byte r]
  else if r ≤ 0x7FF then [byte (0xC0 + r / 64), byte (0x80 + r % 64)]
  else
    let r := if 0x10FFFF < r ∨ (0xD800 ≤ r ∧ r ≤ 0xDFFF) then RuneError else r
    if r ≤ 0xFFFF then
      [byte (0xE0 + r / 4096), byte (0x80 + r / 64 % 64), byte (0x80 + r % 64)]
    else
      [byte (0xF0 + r / 262144), byte (0x80 + r / 4096 % 64),
        byte (0x80 + r / 64 % 64), byte (0x80 + r % 64)]

/-- A Go string literal of the source: the UTF-8 encoding of its characters. -/
def str (s : String) : GoString := s.data.flatMap (fun c => appendRune c.toNat)

/-- The function `utf8.DecodeRuneInString(s)`: the first rune of `s` and its
width in bytes; `(RuneError, 0)` for the empty string and `(RuneError, 1)` when
`s` does not start with a well-formed encoding. The table `first` and the
`acceptRanges` are written out as comparisons on the first byte. -/
def DecodeRuneInString (s : GoString) : Nat × Nat :=
  match s with
  | [] => (RuneError, 0)
  | s0 :: t =>
    if s0.val < 0x80 then (s0.val, 1)
    else if s0.val < 0xC2 ∨ 0xF4 < s0.val then (RuneError, 1)
    else
      let sz := if s0.val < 0xE0 then 2 else if s0.val < 0xF0 then 3 else 4
      let lo := if s0.val = 0xE0 then 0xA0 else if s0.val = 0xF0 then 0x90 else 0x80
      let hi := if s0.val = 0xED then 0x9F else if s0.val = 0xF4 then 0x8F else 0xBF
      if s.length < sz then (RuneError, 1)
      else
        match t with
        | [] => (RuneError, 1)
        | s1 :: t1 =>
          if s1.val < lo ∨ hi < s1.val then (RuneError, 1)
          else if sz ≤ 2 then (s0.val % 32 * 64 + s1.val % 64, 2)
          else
            match t1 with
            | [] => (RuneError, 1)
            | s2 :: t2 =>
              if s2.val < 0x80 ∨ 0xBF < s2.val then (RuneError, 1)
              else if sz ≤ 3 then
                (s0.val % 16 * 4096 + s1.val % 64 * 64 + s2.val % 64, 3)
              else
                match t2 with
                | [] => (RuneError, 1)
                | s3 :: _ =>
                  if s3.val < 0x80 ∨ 0xBF < s3.val then (RuneError, 1)
                  else
                    (s0.val % 8 * 262144 + s1.val % 64 * 4096 + s2.val % 64 * 64
                      + s3.val % 64, 4)

/-- The comparison `a < b` of two Go strings: byte by byte, a proper initial
segment being smaller. -/
def stringLess : GoString → GoString → Bool
  | [], [] => false
  | [], _ :: _ => true
  | _ :: _, [] => false
  | a :: s, b :: t => if a.val < b.val then true else if b.val < a.val then false else stringLess s t

/-! ## `strconv.Quote` and the `fmt.Sprintf` fragment -/

/-- The digit `lowerhex[n]` of `strconv`. -/
def lowerhex (n : Nat) : Byte := (str "0123456789abcdef").getD n 0

/-- The function `strconv.IsPrint(r)`. Up to U+00FF it is decided by the
comparisons of the Go source; above, by the tables of package `strconv`, which
are the argument `tbl`. -/
def IsPrint (tbl : Nat → Bool) (r : Nat) : Bool :=
  if r ≤ 0xFF then
    if 0x20 ≤ r ∧ r ≤ 0x7E then true
    else if 0xA1 ≤ r ∧ r ≤ 0xFF then r != 0xAD
    else false
  else tbl r

/-- The function `appendEscapedRune(nil, r, '"', false, false)` of `strconv`:
the quote and the backslash are always backslashed, another printable rune is
copied, the rest is written as an escape sequence. -/
def appendEscapedRune (tbl : Nat → Bool) (r : Nat) : GoString :=
  if r = 0x22 ∨ r = 0x5C then [0x5C, byte r]
  else if IsPrint tbl r then appendRune r
  else if r = 7 then str "\\a"
  else if r = 8 then str "\\b"
  else if r = 12 then str "\\f"
  else if r = 10 then str "\\n"
  else if r = 13 then str "\\r"
  else if r = 9 then str "\\t"
  else if r = 11 then str "\\v"
  else if r < 0x20 ∨ r = 0x7F then str "\\x" ++ [lowerhex (r / 16), lowerhex (r % 16)]
  else
    let r := if 0x10FFFF < r ∨ (0xD800 ≤ r ∧ r ≤ 0xDFFF) then RuneError else r
    if r < 0x10000 then
      str "\\u" ++ [lowerhex (r / 4096 % 16), lowerhex (r / 256 % 16),
        lowerhex (r / 16 % 16), lowerhex (r % 16)]
    else
      str "\\U" ++ [lowerhex (r / 268435456 % 16), lowerhex (r / 16777216 % 16),
        lowerhex (r / 1048576 % 16), lowerhex (r / 65536 % 16),
        lowerhex (r / 4096 % 16), lowerhex (r / 256 % 16),
        lowerhex (r / 16 % 16), lowerhex (r % 16)]

/-- The loop of `appendQuotedWith`: the text between the two quotes. The first
argument counts the bytes that belong to the rune handled last and are still
to be stepped over (the loop's `s = s[width:]`). -/
def quoteLoop (tbl : Nat → Bool) : Nat → GoString → GoString
  | _, [] => []
  | k + 1, _ :: t => quoteLoop tbl k t
  | 0, b :: t =>
    let rw : Nat × Nat := if 0x80 ≤ b.val then DecodeRuneInString (b :: t) else (b.val, 1)
    if rw.2 = 1 ∧ rw.1 = RuneError then
      str "\\x" ++ [lowerhex (b.val / 16), lowerhex (b.val % 16)] ++ quoteLoop tbl 0 t
    else appendEscapedRune tbl rw.1 ++ quoteLoop tbl (rw.2 - 1) t

/-- The function `strconv.Quote(s)`, which is what the verb `%q` prints for a
string operand (as in Go 1.19 and later, where U+007F is written `\x7f`). -/
def Quote (tbl : Nat → Bool) (s : GoString) : GoString :=
  [0x22] ++ quoteLoop tbl 0 s ++ [0x22]

/-- The report `%!(EXTRA string=a, string=b)` for operands no verb consumed. -/
def extraOperands : List GoString → GoString
  | [] => []
  | a :: rest =>
    str "%!(EXTRA string=" ++ a ++ (rest.flatMap fun b => str ", string=" ++ b) ++ str ")"

/-- The fragment of `fmt.Sprintf(format, operands...)` that the source uses,
every operand being a string. Bytes other than `%` are copied. After a `%`
the next byte is the verb: `%%` prints a percent sign; `%s` and `%v` print
the next operand's bytes unchanged; `%q` prints `strconv.Quote` of it; another
verb prints `%!c(string=...)`. A verb without an operand prints
`%!c(MISSING)`. Flags, widths and precisions are outside this fragment. -/
def Sprintf (tbl : Nat → Bool) : GoString → List GoString → GoString
  | [], operands => extraOperands operands
  | c :: t, operands =>
    if c.val ≠ 0x25 then c :: Sprintf tbl t operands
    else
      match t with
      | [] => str "%!(NOVERB)" ++ extraOperands operands
      | v :: rest =>
        if v.val = 0x25 then v :: Sprintf tbl rest operands
        else
          match operands with
          | [] => str "%!" ++ [v] ++ str "(MISSING)" ++ Sprintf tbl rest []
          | a :: more =>
            (if v.val = 0x73 ∨ v.val = 0x76 then a
             else if v.val = 0x71 then Quote tbl a
             else str "%!" ++ [v] ++ str "(string=" ++ a ++ str ")")
              ++ Sprintf tbl rest more

/-! ## Errors (`github.com/pkg/errors`) -/

/-- A Go `error` value. `base` is an error that comes from a collaborator and
is no wrapper of `pkg/errors`; `withMessage` and `withStack` are the two
wrappers of `pkg/errors`. The call stack a `withStack` records has no effect
on `Error()`, `Unwrap()` or `Cause()` and is not represented. -/
inductive GoError where
  | base (msg : GoString)
  | withMessage (cause : GoError) (msg : GoString)
  | withStack (err : GoError)
  deriving DecidableEq

/-- The method `Error()`: a `withMessage` prints its message, `": "` and the
message of its cause; a `withStack` prints what the error it holds prints. -/
def GoError.Error : GoError → GoString
  | .base msg => msg
  | .withMessage cause msg => msg ++ str ": " ++ cause.Error
  | .withStack err => err.Error

/-- The method `Unwrap()`: one layer down, the cause of a `withMessage` and
the error a `withStack` holds; an error that is no wrapper has none. -/
def GoError.Unwrap : GoError → Option GoError
  | .base _ => none
  | .withMessage cause _ => some cause
  | .withStack err => some err

/-- The function `errors.Cause(err)`: the error reached by following `Cause()`
through every wrapper. -/
def Cause : GoError → GoError
  | .base msg => .base msg
  | .withMessage cause _ => Cause cause
  | .withStack err => Cause err

/-- The function `errors.Wrap(err, message)`: a `withStack` around a
`withMessage` around `err`; `nil` stays `nil`. -/
def Wrap (err : Option GoError) (message : GoString) : Option GoError :=
  match err with
  | none => none
  | some e => some (.withStack (.withMessage e message))

/-- The function `errors.Wrapf(err, format, operands...)`: a `withStack`
around a `withMessage` around `err`; `nil` stays `nil`. -/
def Wrapf (tbl : Nat → Bool) (err : Option GoError) (format : GoString)
    (operands : List GoString) : Option GoError :=
  match err with
  | none => none
  | some e => some (.withStack (.withMessage e (Sprintf tbl format operands)))

/-! ## `encoding/json` -/

/-- The meaning of the JSON string literal that `encoding/json` writes for the
Go string `s` (`appendString`): the bytes of `s`, each byte that does not
start a well-formed UTF-8 encoding replaced by the encoding of U+FFFD. The
escapes the encoder writes for quotes, control characters, `<`, `>`, `&`,
U+2028 and U+2029 denote the character escaped and leave no trace here. The
first argument counts the bytes of the current rune still to be copied. -/
def toValidUTF8 : Nat → GoString → GoString
  | _, [] => []
  | k + 1, b :: t => b :: toValidUTF8 k t
  | 0, b :: t =>
    if b.val < 0x80 then b :: toValidUTF8 0 t
    else
      let cs := DecodeRuneInString (b :: t)
      if cs.1 = RuneError ∧ cs.2 = 1 then appendRune RuneError ++ toValidUTF8 0 t
      else b :: toValidUTF8 (cs.2 - 1) t

/-- A JSON value, as far as values of the field types of `AppRoleOptions`
produce one. -/
inductive JSONValue where
  | null
  | bool (b : Bool)
  | number (n : Int)
  | string (s : GoString)
  | strings (xs : List GoString)
  deriving DecidableEq

/-- A JSON object: its members in the order they are written. -/
abbrev JSONObject := List (GoString × JSONValue)

/-- A Go `[]string`: `none` is the nil slice. -/
abbrev StringSlice := Option (List GoString)

/-- The elements of a slice; a nil slice has none. -/
def StringSlice.elems (xs : StringSlice) : List GoString := xs.getD []

/-- The value of a struct field, by kind. `time.Duration` is an `int64` and
has kind `int`. -/
inductive GoValue where
  | string (s : GoString)
  | bool (b : Bool)
  | int (n : Int)
  | strings (xs : StringSlice)

/-- A field of a struct as `reflect` presents it: its Go name, its tag text
and its value. -/
structure StructField where
  Name : GoString
  Tag : GoString
  value : GoValue

/-- The method `IsExported()`: the name starts with an upper-case letter
(identifiers of this file are ASCII). -/
def StructField.IsExported (sf : StructField) : Bool :=
  match sf.Name with
  | [] => false
  | c :: _ => decide (0x41 ≤ c.val ∧ c.val ≤ 0x5A)

/-- The scan of `StructTag.Lookup` over a quoted value, started after the
opening quote: the text up to the closing quote and what follows it; a
backslash takes the next byte with it. `none` when no closing quote is found. -/
def scanQuoted : GoString → Option (GoString × GoString)
  | [] => none
  | c :: t =>
    if c.val = 0x22 then some ([], t)
    else if c.val = 0x5C then
      match t with
      | [] => none
      | d :: rest => (scanQuoted rest).map fun qr => (c :: d :: qr.1, qr.2)
    else (scanQuoted t).map fun qr => (c :: qr.1, qr.2)

/-- The call `strconv.Unquote` that `StructTag.Lookup` makes on a quoted value,
given the text between the quotes. A value with a backslash or a newline is
answered with `none`: escape sequences are not interpreted here, and no tag of
`AppRoleOptions` has one. -/
def unquoteTagValue (q : GoString) : Option GoString :=
  if q.any (fun c => c.val = 0x5C ∨ c.val = 0x0A) then none else some q

/-- The method `reflect.StructTag.Lookup(key)`: the tag is a sequence of
`name:"value"` pairs separated by spaces; anything else ends the search with
no value. The first argument bounds the number of pairs looked at. -/
def StructTagLookup : Nat → GoString → GoString → Option GoString
  | 0, _, _ => none
  | fuel + 1, tag, key =>
    let tag := tag.dropWhile (fun c => c.val = 0x20)
    let name := tag.takeWhile
      (fun c => 0x20 < c.val ∧ c.val ≠ 0x3A ∧ c.val ≠ 0x22 ∧ c.val ≠ 0x7F)
    if name = [] then none
    else
      match tag.drop name.length with
      | c0 :: c1 :: rest =>
        if c0.val ≠ 0x3A ∨ c1.val ≠ 0x22 then none
        else
          match scanQuoted rest with
          | none => none
          | some (qvalue, tag1) =>
            if key = name then unquoteTagValue qvalue
            else StructTagLookup fuel tag1 key
      | _ => none

/-- The method `reflect.StructTag.Get(key)`: the empty string when `Lookup`
finds nothing. -/
def StructTagGet (tag key : GoString) : GoString :=
  (StructTagLookup tag.length tag key).getD []

/-- The function `parseTag` of `encoding/json`: the text before the first
comma, and the options after it. -/
def parseTag (tag : GoString) : GoString × GoString :=
  (tag.takeWhile (fun c => c.val ≠ 0x2C), (tag.dropWhile (fun c => c.val ≠ 0x2C)).drop 1)

/-- The method `tagOptions.Contains`: `optionName` is one of the
comma-separated options. -/
def tagOptionsContains : Nat → GoString → GoString → Bool
  | 0, _, _ => false
  | fuel + 1, o, optionName =>
    if o = [] then false
    else if o.takeWhile (fun c => c.val ≠ 0x2C) = optionName then true
    else tagOptionsContains fuel ((o.dropWhile (fun c => c.val ≠ 0x2C)).drop 1) optionName

/-- The function `isValidTag` of `encoding/json`: a non-empty name of letters,
digits and the punctuation listed (letters and digits outside ASCII are not
recognised here). -/
def isValidTag (s : GoString) : Bool :=
  s != [] && s.all fun c =>
    (str "!#$%&()*+-./:;<=>?@[]^_\x7b|\x7d~ ").contains c
      || decide (0x30 ≤ c.val ∧ c.val ≤ 0x39) || decide (0x41 ≤ c.val ∧ c.val ≤ 0x5A)
      || decide (0x61 ≤ c.val ∧ c.val ≤ 0x7A)

/-- The record `field` of `encoding/json`: the key a struct field is written
under, whether that key comes from the tag, whether the tag has the option
`omitempty`, and the value. -/
structure field where
  name : GoString
  tag : Bool
  omitEmpty : Bool
  value : GoValue

/-- The scan of `typeFields` over the fields of a struct without embedded
fields: a field that is not exported is skipped, and so is one tagged `-`; the
key is the tag's name when the tag has a valid one and the Go name otherwise. -/
def scanFields (fs : List StructField) : List field :=
  fs.filterMap fun sf =>
    if !sf.IsExported then none
    else
      let tag := StructTagGet sf.Tag (str "json")
      if tag = str "-" then none
      else
        let no := parseTag tag
        let name := if isValidTag no.1 then no.1 else []
        some ⟨if name = [] then sf.Name else name, name != [],
          tagOptionsContains no.2.length.succ no.2 (str "omitempty"), sf.value⟩

/-- The rule `dominantField` of `encoding/json` among fields of one struct:
of several fields with the same key the only tagged one is kept, and none is
kept when there is no such one. -/
def dominant (all : List (GoString × Bool)) (name : GoString) (tag : Bool) : Bool :=
  let same := all.filter fun g => decide (g.1 = name)
  same.length == 1 || (tag && (same.filter fun g => g.2).length == 1)

/-- The function `typeFields` of `encoding/json` on a struct without embedded
fields: the fields found by the scan that the dominance rule keeps, in
declaration order. -/
def typeFields (fs : List StructField) : List field :=
  (scanFields fs).filter fun f =>
    dominant ((scanFields fs).map fun g => (g.name, g.tag)) f.name f.tag

/-- The function `isEmptyValue` of `encoding/json`: `false`, `0`, a string or
a slice of length zero (a nil slice included). -/
def isEmptyValue : GoValue → Bool
  | .string s => s.length == 0
  | .bool b => b == false
  | .int n => n == 0
  | .strings xs => xs.elems.length == 0

/-- The JSON value written for a Go value: a string and the elements of a
slice go through the string encoder, a nil slice is `null`. -/
def encodeValue : GoValue → JSONValue
  | .string s => .string (toValidUTF8 0 s)
  | .bool b => .bool b
  | .int n => .number n
  | .strings none => .null
  | .strings (some xs) => .strings (xs.map (toValidUTF8 0))

/-- The struct encoder of `encoding/json`: the fields in order, one with
`omitempty` and an empty value left out. -/
def structEncoder (fs : List field) : JSONObject :=
  fs.filterMap fun f =>
    if f.omitEmpty && isEmptyValue f.value then none else some (f.name, encodeValue f.value)

/-- The call `json.Unmarshal(data, &m)` with `m` a `map[string]interface{}`,
on the document `data` denotes: the map holds one entry per distinct key, a
later member replacing an earlier one with the same key. The map is listed in
order of last insertion; numbers are kept as written. -/
def unmarshalMap (doc : JSONObject) : List (GoString × JSONValue) :=
  doc.foldl (fun m kv => m.filter (fun e => e.1 ≠ kv.1) ++ [kv]) []

/-! ## `auth_approle.go` -/

/-- The variable `basePath`. -/
def basePath : GoString := str "/auth/approle/role"

/-- The struct `AppRoleOptions`; every field has the zero value of its type
unless set. The four `time.Duration` fields hold a count of nanoseconds. -/
structure AppRoleOptions where
  RoleName : GoString := []
  bind_secret_id : Bool := false
  SecretIDBoundCiders : StringSlice := none
  SecretIDNumUses : Int := 0
  SecretIDTTL : GoString := []
  EnableLocalSecretIDs : Bool := false
  TokenTTL : Int := 0
  TokenMaxTTL : Int := 0
  TokenPolicies : StringSlice := none
  TokenBoundCIDRs : StringSlice := none
  TokenExplicitMaxTTL : Int := 0
  TokenNoDefaultPolicy : Bool := false
  TokenNumUses : Int := 0
  TokenPeriod : Int := 0
  TokenType : GoString := []

/-- The constant `time.Second`, in nanoseconds. -/
def Second : Int := 1000000000

/-- The fields of `AppRoleOptions` in declaration order, each with the name
and the tag text of its line in the source. -/
def AppRoleOptions.fields (r : AppRoleOptions) : List StructField :=
  [ ⟨str "RoleName", str "json:role_name", .string r.RoleName⟩,
    ⟨str "bind_secret_id", str "json:bind_secret_id,omitempty", .bool r.bind_secret_id⟩,
    ⟨str "SecretIDBoundCiders", str "json:\"secret_id_bound_cidrs,omitempty\"",
      .strings r.SecretIDBoundCiders⟩,
    ⟨str "SecretIDNumUses", str "json:\"secret_id_num_uses,omitempty\"",
      .int r.SecretIDNumUses⟩,
    ⟨str "SecretIDTTL", str "json:\"secret_id_ttl,omitempty\"", .string r.SecretIDTTL⟩,
    ⟨str "EnableLocalSecretIDs", str "json:\"enable_local_secret_ids,omitempty\"",
      .bool r.EnableLocalSecretIDs⟩,
    ⟨str "TokenTTL", str "json:\"token_ttl,omitempty\"", .int r.TokenTTL⟩,
    ⟨str "TokenMaxTTL", str "json:\"token_max_ttl,omitempty\"", .int r.TokenMaxTTL⟩,
    ⟨str "TokenPolicies", str "json:\"token_policies,omitempty\"", .strings r.TokenPolicies⟩,
    ⟨str "TokenBoundCIDRs", str "json:\"token_bound_cidrs,omitempty\"",
      .strings r.TokenBoundCIDRs⟩,
    ⟨str "TokenExplicitMaxTTL", str "json:\"token_explicit_max_ttl,omitempty\"",
      .int r.TokenExplicitMaxTTL⟩,
    ⟨str "TokenNoDefaultPolicy", str "json:\"token_no_default_policy,omitempty\"",
      .bool r.TokenNoDefaultPolicy⟩,
    ⟨str "TokenNumUses", str "json:\"token_num_uses,omitempty\"", .int r.TokenNumUses⟩,
    ⟨str "TokenPeriod", str "json:\"token_period,omitempty\"", .int r.TokenPeriod⟩,
    ⟨str "TokenType", str "json:\"token_type,omitempty\"", .string r.TokenType⟩ ]

/-- The call `json.Marshal(roleData)`: the document written, or an error.
`Marshal` reports an error for a value it cannot represent (a channel, a
function, a cycle, a non-finite float, a failing `Marshaler`); strings,
booleans, integers and string slices are all representable. -/
def Marshal (roleData : AppRoleOptions) : Except GoError JSONObject :=
  .ok (structEncoder (typeFields roleData.fields))

/-- Modelled from the spec: the field `Data` of `rolesWrapper`, whose type is
declared outside `auth_approle.go`; it holds the `keys` of the response body
`{ "data": { "keys": [string, ...] } }`. -/
structure rolesData where
  Keys : StringSlice := none

/-- Modelled from the spec: the type `rolesWrapper`, declared outside
`auth_approle.go`; `ListAppRoles` reads `Data.Keys`, a `[]string`, from it. -/
structure rolesWrapper where
  Data : rolesData := {}

/-- A call made to a collaborator. -/
inductive Call where
  | list (path : GoString)
  | post (path : GoString) (body : JSONObject)
  | logPrintf (format : GoString) (operand : JSONObject)
  deriving DecidableEq

/-- Whether a call is a request to the transport. -/
def Call.isRequest : Call → Bool
  | .list _ => true
  | .post _ _ => true
  | .logPrintf _ _ => false

/-- The receiver `c *client`, whose type and methods are declared outside
`auth_approle.go`, as far as the two operations use it: what `c.list(path, &w)`
returns and stores in `w`, and what `c.post(path, body, nil)` returns (`none`
is the nil error). Both methods are the transport and are left arbitrary. -/
structure client where
  list : GoString → Option GoError × rolesWrapper
  post : GoString → JSONObject → Option GoError

/-- One step of an insertion sort: `x` is placed before the first element it is
less than. -/
def insertBy {α : Type} (less : α → α → Bool) (x : α) : List α → List α
  | [] => [x]
  | y :: ys => if less x y then x :: y :: ys else y :: insertBy less x ys

/-- The function `sort.Sort` for the ordering `less`, as an insertion sort. -/
def sortWith {α : Type} (less : α → α → Bool) (xs : List α) : List α :=
  xs.foldr (insertBy less) []

/-- The function `sort.Strings`: `sort.Sort` with `Less(i, j)` the comparison
`x[i] < x[j]` of strings. -/
def sortStrings (xs : List GoString) : List GoString := sortWith stringLess xs

/-- What `ListAppRoles` returns, and the calls it made. -/
structure ListResult where
  roles : StringSlice
  err : Option GoError
  calls : List Call

/-- What `CreateAppRole` returns, and the calls it made. -/
structure CreateResult where
  err : Option GoError
  calls : List Call

/-- The method `ListAppRoles`. -/
def ListAppRoles (tbl : Nat → Bool) (c : client) : ListResult :=
  let requestPath := basePath
  match c.list requestPath with
  | (some err, _) =>
    ⟨none, Wrapf tbl (some err) (str "failed to list token roles at %q") [requestPath],
      [.list requestPath]⟩
  | (none, rolesWrapper) =>
    ⟨rolesWrapper.Data.Keys.map sortStrings, none, [.list requestPath]⟩

/-- The method `CreateAppRole`. -/
def CreateAppRole (tbl : Nat → Bool) (c : client) (roleData : AppRoleOptions) : CreateResult :=
  match Marshal roleData with
  | .error err => ⟨Wrap (some err) (str "marshalling role data to JSON request body"), []⟩
  | .ok byteArray =>
    let logged := Call.logPrintf (str "role-create request: %v") byteArray
    let requestPath := Sprintf tbl (str "/v1/auth/approle/role/%s") [roleData.RoleName]
    match c.post requestPath byteArray with
    | some err =>
      ⟨Wrapf tbl (some err) (str "creating role at %q") [requestPath],
        [logged, .post requestPath byteArray]⟩
    | none => ⟨none, [logged, .post requestPath byteArray]⟩

/-! ## Vocabulary of the statements -/

/-- A Unicode scalar value: a code point that is not a surrogate. -/
def ValidRune (n : Nat) : Prop := n < 0xD800 ∨ (0xDFFF < n ∧ n < 0x110000)

/-- The code points of a text. -/
def runes (s : String) : List Nat := s.data.map Char.toNat

/-- Code-point order: the first position where two texts differ decides, and a
proper initial segment is smaller. -/
def codePointLess : List Nat → List Nat → Bool
  | [], [] => false
  | [], _ :: _ => true
  | _ :: _, [] => false
  | a :: s, b :: t => if a < b then true else if b < a then false else codePointLess s t

/-- The keys of a JSON object, in order. -/
def keys (doc : JSONObject) : List GoString := doc.map Prod.fst

/-- The requests to the transport among the calls made. -/
def requests (calls : List Call) : List Call := calls.filter Call.isRequest

/-- The path `CreateAppRole` posts to for a role name. -/
def rolePath (name : GoString) : GoString := str "/v1/auth/approle/role/" ++ name

/-- A transport that accepts every write and reports no roles. -/
def acceptAll : client := ⟨fun _ => (none, {}), fun _ _ => none⟩

/-- A transport whose every call fails with the error `e`. -/
def failWith (e : GoError) : client := ⟨fun _ => (some e, {}), fun _ _ => some e⟩

/-- A transport whose list call succeeds and reports `names` under `data.keys`. -/
def reporting (names : StringSlice) : client :=
  ⟨fun _ => (none, ⟨⟨names⟩⟩), fun _ _ => none⟩

/-- A table for `strconv.IsPrint` in which no rune above U+00FF is printable. -/
def noTable : Nat → Bool := fun _ => false

/-! ## UTF-8: decoding an encoding -/

theorem byte_val (n : Nat) : (byte n).val = n % 256 := rfl

theorem Char_validRune (c : Char) : ValidRune c.toNat := by
  have h := c.valid
  unfold ValidRune
  simp only [UInt32.isValidChar, Nat.isValidChar] at h
  simpa [Char.toNat] using h

theorem decode_two (b0 b1 : Byte) (rest : GoString) (h0 : 0xC2 ≤ b0.val) (h0' : b0.val < 0xE0)
    (h1 : 0x80 ≤ b1.val) (h1' : b1.val ≤ 0xBF) :
    DecodeRuneInString (b0 :: b1 :: rest) = (b0.val % 32 * 64 + b1.val % 64, 2) := by
  have a1 : ¬ b0.val < 0x80 := by omega
  have a2 : ¬ (b0.val < 0xC2 ∨ 0xF4 < b0.val) := by omega
  have a3 : ¬ b0.val = 0xE0 := by omega
  have a4 : ¬ b0.val = 0xF0 := by omega
  have a5 : ¬ b0.val = 0xED := by omega
  have a6 : ¬ b0.val = 0xF4 := by omega
  have a7 : ¬ (b1.val < 0x80 ∨ 0xBF < b1.val) := by omega
  simp only [DecodeRuneInString, a1, a2, a3, a4, a5, a6, a7, h0', if_true, if_false,
    List.length_cons]
  simp

theorem decode_three (b0 b1 b2 : Byte) (rest : GoString) (h0 : 0xE0 ≤ b0.val)
    (h0' : b0.val < 0xF0) (h1 : 0x80 ≤ b1.val) (h1' : b1.val ≤ 0xBF)
    (hE0 : b0.val = 0xE0 → 0xA0 ≤ b1.val) (hED : b0.val = 0xED → b1.val ≤ 0x9F)
    (h2 : 0x80 ≤ b2.val) (h2' : b2.val ≤ 0xBF) :
    DecodeRuneInString (b0 :: b1 :: b2 :: rest)
      = (b0.val % 16 * 4096 + b1.val % 64 * 64 + b2.val % 64, 3) := by
  have a1 : ¬ b0.val < 0x80 := by omega
  have a2 : ¬ (b0.val < 0xC2 ∨ 0xF4 < b0.val) := by omega
  have a3 : ¬ b0.val < 0xE0 := by omega
  have a4 : ¬ b0.val = 0xF0 := by omega
  have a6 : ¬ b0.val = 0xF4 := by omega
  have a7 : ¬ (b2.val < 0x80 ∨ 0xBF < b2.val) := by omega
  have a8 : ¬ ((b1.val < if b0.val = 0xE0 then 0xA0 else 0x80)
      ∨ (if b0.val = 0xED then 0x9F else 0xBF) < b1.val) := by
    split_ifs <;> omega
  simp only [DecodeRuneInString, a1, a2, a3, a4, a6, a7, a8, h0', if_true, if_false,
    List.length_cons]
  simp

theorem decode_four (b0 b1 b2 b3 : Byte) (rest : GoString) (h0 : 0xF0 ≤ b0.val)
    (h0' : b0.val ≤ 0xF4) (h1 : 0x80 ≤ b1.val) (h1' : b1.val ≤ 0xBF)
    (hF0 : b0.val = 0xF0 → 0x90 ≤ b1.val) (hF4 : b0.val = 0xF4 → b1.val ≤ 0x8F)
    (h2 : 0x80 ≤ b2.val) (h2' : b2.val ≤ 0xBF) (h3 : 0x80 ≤ b3.val) (h3' : b3.val ≤ 0xBF) :
    DecodeRuneInString (b0 :: b1 :: b2 :: b3 :: rest)
      = (b0.val % 8 * 262144 + b1.val % 64 * 4096 + b2.val % 64 * 64 + b3.val % 64, 4) := by
  have a1 : ¬ b0.val < 0x80 := by omega
  have a2 : ¬ (b0.val < 0xC2 ∨ 0xF4 < b0.val) := by omega
  have a3 : ¬ b0.val < 0xE0 := by omega
  have a4 : ¬ b0.val < 0xF0 := by omega
  have a5 : ¬ b0.val = 0xE0 := by omega
  have a6 : ¬ b0.val = 0xED := by omega
  have a7 : ¬ (b2.val < 0x80 ∨ 0xBF < b2.val) := by omega
  have a9 : ¬ (b3.val < 0x80 ∨ 0xBF < b3.val) := by omega
  have a8 : ¬ ((b1.val < if b0.val = 0xF0 then 0x90 else 0x80)
      ∨ (if b0.val = 0xF4 then 0x8F else 0xBF) < b1.val) := by
    split_ifs <;> omega
  simp only [DecodeRuneInString, a1, a2, a3, a4, a5, a6, a7, a8, a9, if_true, if_false,
    List.length_cons]
  simp

/-- Decoding the encoding of a scalar value gives the value and the length of
the encoding, whatever follows. -/
theorem decode_appendRune (n : Nat) (hn : ValidRune n) (rest : GoString) :
    DecodeRuneInString (appendRune n ++ rest) = (n, (appendRune n).length) := by
  unfold ValidRune at hn
  unfold appendRune
  by_cases h1 : n < 0x80
  · have e0 : n % 256 = n := by omega
    simp [h1, DecodeRuneInString, byte_val, e0]
  · by_cases h2 : n ≤ 0x7FF
    · simp only [h1, h2, if_true, if_false, List.cons_append, List.nil_append,
        List.length_cons, List.length_nil]
      rw [decode_two _ _ _ (by rw [byte_val]; omega) (by rw [byte_val]; omega)
        (by rw [byte_val]; omega) (by rw [byte_val]; omega)]
      simp only [byte_val, Prod.mk.injEq, and_true]
      omega
    · have hv : ¬ (0x10FFFF < n ∨ (0xD800 ≤ n ∧ n ≤ 0xDFFF)) := by omega
      by_cases h3 : n ≤ 0xFFFF
      · simp only [h1, h2, h3, hv, if_true, if_false, List.cons_append, List.nil_append,
          List.length_cons, List.length_nil]
        rw [decode_three _ _ _ _ (by rw [byte_val]; omega) (by rw [byte_val]; omega)
          (by rw [byte_val]; omega) (by rw [byte_val]; omega)
          (by rw [byte_val, byte_val]; omega) (by rw [byte_val, byte_val]; omega)
          (by rw [byte_val]; omega) (by rw [byte_val]; omega)]
        simp only [byte_val, Prod.mk.injEq, and_true]
        omega
      · simp only [h1, h2, h3, hv, if_true, if_false, List.cons_append, List.nil_append,
          List.length_cons, List.length_nil]
        rw [decode_four _ _ _ _ _ (by rw [byte_val]; omega) (by rw [byte_val]; omega)
          (by rw [byte_val]; omega) (by rw [byte_val]; omega)
          (by rw [byte_val, byte_val]; omega) (by rw [byte_val, byte_val]; omega)
          (by rw [byte_val]; omega) (by rw [byte_val]; omega)
          (by rw [byte_val]; omega) (by rw [byte_val]; omega)]
        simp only [byte_val, Prod.mk.injEq, and_true]
        omega

/-- The encoding of a scalar value starts with a byte below `0x80` exactly
when it is one byte long and holds the value itself. -/
theorem appendRune_shape (n : Nat) (hn : ValidRune n) :
    ∃ b l, appendRune n = b :: l ∧ (b.val < 0x80 → l = [] ∧ b.val = n)
      ∧ (¬ b.val < 0x80 → l ≠ [] ∧ 0x80 ≤ n) := by
  unfold ValidRune at hn
  unfold appendRune
  by_cases h1 : n < 0x80
  · refine ⟨byte n, [], by simp [h1], fun _ => ⟨rfl, ?_⟩, fun h => ?_⟩
    · rw [byte_val]; omega
    · rw [byte_val] at h; omega
  · by_cases h2 : n ≤ 0x7FF
    · refine ⟨_, _, by simp only [h1, h2, if_true, if_false]; rfl, fun h => ?_, fun _ => ?_⟩
      · rw [byte_val] at h; omega
      · exact ⟨by simp, by omega⟩
    · have hv : ¬ (0x10FFFF < n ∨ (0xD800 ≤ n ∧ n ≤ 0xDFFF)) := by omega
      by_cases h3 : n ≤ 0xFFFF
      · refine ⟨_, _, by simp only [h1, h2, h3, hv, if_true, if_false]; rfl,
          fun h => ?_, fun _ => ?_⟩
        · rw [byte_val] at h; omega
        · exact ⟨by simp, by omega⟩
      · refine ⟨_, _, by simp only [h1, h2, h3, hv, if_true, if_false]; rfl,
          fun h => ?_, fun _ => ?_⟩
        · rw [byte_val] at h; omega
        · exact ⟨by simp, by omega⟩

theorem str_cons (c : Char) (cs : List Char) :
    str ⟨c :: cs⟩ = appendRune c.toNat ++ str ⟨cs⟩ := by
  simp [str]

/-! ## The string encoder of `encoding/json` on valid UTF-8 -/

theorem toValidUTF8_copy (l rest : GoString) :
    toValidUTF8 l.length (l ++ rest) = l ++ toValidUTF8 0 rest := by
  induction l with
  | nil => rfl
  | cons b l ih => simp [toValidUTF8, ih]

theorem toValidUTF8_appendRune (n : Nat) (hn : ValidRune n) (rest : GoString) :
    toValidUTF8 0 (appendRune n ++ rest) = appendRune n ++ toValidUTF8 0 rest := by
  have hd := decode_appendRune n hn rest
  obtain ⟨b, l, hbl, hsmall, hbig⟩ := appendRune_shape n hn
  rw [hbl] at hd ⊢
  by_cases hb : b.val < 0x80
  · obtain ⟨hl, _⟩ := hsmall hb
    subst hl
    simp [toValidUTF8, hb]
  · obtain ⟨hl, _⟩ := hbig hb
    have hlen : ¬ (l.length + 1 = 1) := by
      cases l with
      | nil => exact absurd rfl hl
      | cons _ _ => simp
    simp only [List.cons_append] at hd ⊢
    simp only [toValidUTF8, hb, if_false, hd, List.length_cons, hlen, and_false,
      Nat.add_sub_cancel]
    rw [toValidUTF8_copy]

/-- The string encoder leaves the encoding of a text as it is. -/
theorem toValidUTF8_str (cs : List Char) (rest : GoString) :
    toValidUTF8 0 (str ⟨cs⟩ ++ rest) = str ⟨cs⟩ ++ toValidUTF8 0 rest := by
  induction cs with
  | nil => rfl
  | cons c cs ih =>
    rw [str_cons, List.append_assoc, toValidUTF8_appendRune _ (Char_validRune c), ih,
      List.append_assoc]

/-! ## Byte order and code-point order -/

theorem stringLess_append_same (l x y : GoString) :
    stringLess (l ++ x) (l ++ y) = stringLess x y := by
  induction l with
  | nil => rfl
  | cons b l ih => simp [stringLess, ih]

theorem appendRune_one (n : Nat) (h : n < 0x80) : appendRune n = [byte n] := by
  simp [appendRune, h]

theorem appendRune_two (n : Nat) (h : 0x80 ≤ n) (h' : n ≤ 0x7FF) :
    appendRune n = [byte (0xC0 + n / 64), byte (0x80 + n % 64)] := by
  have h1 : ¬ n < 0x80 := by omega
  simp only [appendRune, h1, h', if_true, if_false]

theorem appendRune_three (n : Nat) (hn : ValidRune n) (h : 0x800 ≤ n) (h' : n ≤ 0xFFFF) :
    appendRune n
      = [byte (0xE0 + n / 4096), byte (0x80 + n / 64 % 64), byte (0x80 + n % 64)] := by
  unfold ValidRune at hn
  have h1 : ¬ n < 0x80 := by omega
  have h2 : ¬ n ≤ 0x7FF := by omega
  have hv : ¬ (0x10FFFF < n ∨ (0xD800 ≤ n ∧ n ≤ 0xDFFF)) := by omega
  simp only [appendRune, h1, h2, hv, h', if_true, if_false]

theorem appendRune_four (n : Nat) (hn : ValidRune n) (h : 0x10000 ≤ n) :
    appendRune n = [byte (0xF0 + n / 262144), byte (0x80 + n / 4096 % 64),
      byte (0x80 + n / 64 % 64), byte (0x80 + n % 64)] := by
  unfold ValidRune at hn
  have h1 : ¬ n < 0x80 := by omega
  have h2 : ¬ n ≤ 0x7FF := by omega
  have h3 : ¬ n ≤ 0xFFFF := by omega
  have hv : ¬ (0x10FFFF < n ∨ (0xD800 ≤ n ∧ n ≤ 0xDFFF)) := by omega
  simp only [appendRune, h1, h2, h3, hv, if_true, if_false]

theorem stringLess_head_lt (a b : Byte) (s t : GoString) (h : a.val < b.val) :
    stringLess (a :: s) (b :: t) = true ∧ stringLess (b :: t) (a :: s) = false := by
  have h' : ¬ b.val < a.val := by omega
  simp [stringLess, h, h']

theorem stringLess_head_eq (a b : Byte) (s t : GoString) (h : a.val = b.val) :
    stringLess (a :: s) (b :: t) = stringLess s t := by
  simp [stringLess, h]

/-- Two byte strings of equal length compared digit by digit. -/
theorem stringLess_cons_cases (a b : Byte) (s t : GoString)
    (h : a.val < b.val ∨ (a.val = b.val ∧ stringLess s t = true ∧ stringLess t s = false)) :
    stringLess (a :: s) (b :: t) = true ∧ stringLess (b :: t) (a :: s) = false := by
  rcases h with h | ⟨h, h1, h2⟩
  · exact stringLess_head_lt a b s t h
  · rw [stringLess_head_eq a b s t h, stringLess_head_eq b a t s h.symm]
    exact ⟨h1, h2⟩

/-- The encodings of two scalar values compare as the values do, whatever
follows them. -/
theorem stringLess_appendRune (n m : Nat) (hn : ValidRune n) (hm : ValidRune m) (h : n < m)
    (x y : GoString) :
    stringLess (appendRune n ++ x) (appendRune m ++ y) = true
      ∧ stringLess (appendRune m ++ y) (appendRune n ++ x) = false := by
  have hn' := hn
  have hm' := hm
  unfold ValidRune at hn' hm'
  have cn : n < 0x80 ∨ (0x80 ≤ n ∧ n ≤ 0x7FF) ∨ (0x800 ≤ n ∧ n ≤ 0xFFFF) ∨ 0x10000 ≤ n := by
    omega
  have cm : m < 0x80 ∨ (0x80 ≤ m ∧ m ≤ 0x7FF) ∨ (0x800 ≤ m ∧ m ≤ 0xFFFF) ∨ 0x10000 ≤ m := by
    omega
  rcases cn with n1 | ⟨n2, n2'⟩ | ⟨n3, n3'⟩ | n4
  · rw [appendRune_one n n1]
    rcases cm with m1 | ⟨m2, m2'⟩ | ⟨m3, m3'⟩ | m4
    · rw [appendRune_one m m1]
      exact stringLess_head_lt _ _ _ _ (by rw [byte_val, byte_val]; omega)
    · rw [appendRune_two m m2 m2']
      exact stringLess_head_lt _ _ _ _ (by rw [byte_val, byte_val]; omega)
    · rw [appendRune_three m hm m3 m3']
      exact stringLess_head_lt _ _ _ _ (by rw [byte_val, byte_val]; omega)
    · rw [appendRune_four m hm m4]
      exact stringLess_head_lt _ _ _ _ (by rw [byte_val, byte_val]; omega)
  · rw [appendRune_two n n2 n2']
    rcases cm with m1 | ⟨m2, m2'⟩ | ⟨m3, m3'⟩ | m4
    · omega
    · rw [appendRune_two m m2 m2']
      apply stringLess_cons_cases
      by_cases e : n / 64 < m / 64
      · left; rw [byte_val, byte_val]; omega
      · right
        refine ⟨by rw [byte_val, byte_val]; omega, ?_⟩
        exact stringLess_head_lt _ _ _ _ (by rw [byte_val, byte_val]; omega)
    · rw [appendRune_three m hm m3 m3']
      exact stringLess_head_lt _ _ _ _ (by rw [byte_val, byte_val]; omega)
    · rw [appendRune_four m hm m4]
      exact stringLess_head_lt _ _ _ _ (by rw [byte_val, byte_val]; omega)
  · rw [appendRune_three n hn n3 n3']
    rcases cm with m1 | ⟨m2, m2'⟩ | ⟨m3, m3'⟩ | m4
    · omega
    · omega
    · rw [appendRune_three m hm m3 m3']
      apply stringLess_cons_cases
      by_cases e : n / 4096 < m / 4096
      · left; rw [byte_val, byte_val]; omega
      · right
        refine ⟨by rw [byte_val, byte_val]; omega, ?_⟩
        apply stringLess_cons_cases
        by_cases e' : n / 64 % 64 < m / 64 % 64
        · left; rw [byte_val, byte_val]; omega
        · right
          refine ⟨by rw [byte_val, byte_val]; omega, ?_⟩
          exact stringLess_head_lt _ _ _ _ (by rw [byte_val, byte_val]; omega)
    · rw [appendRune_four m hm m4]
      exact stringLess_head_lt _ _ _ _ (by rw [byte_val, byte_val]; omega)
  · rw [appendRune_four n hn n4]
    rcases cm with m1 | ⟨m2, m2'⟩ | ⟨m3, m3'⟩ | m4
    · omega
    · omega
    · omega
    · rw [appendRune_four m hm m4]
      apply stringLess_cons_cases
      by_cases e : n / 262144 < m / 262144
      · left; rw [byte_val, byte_val]; omega
      · right
        refine ⟨by rw [byte_val, byte_val]; omega, ?_⟩
        apply stringLess_cons_cases
        by_cases e' : n / 4096 % 64 < m / 4096 % 64
        · left; rw [byte_val, byte_val]; omega
        · right
          refine ⟨by rw [byte_val, byte_val]; omega, ?_⟩
          apply stringLess_cons_cases
          by_cases e'' : n / 64 % 64 < m / 64 % 64
          · left; rw [byte_val, byte_val]; omega
          · right
            refine ⟨by rw [byte_val, byte_val]; omega, ?_⟩
            exact stringLess_head_lt _ _ _ _ (by rw [byte_val, byte_val]; omega)

/-- On the encodings of two texts the byte order of Go strings is the
code-point order. -/
theorem stringLess_str (a b : List Char) :
    stringLess (str ⟨a⟩) (str ⟨b⟩) = codePointLess (a.map Char.toNat) (b.map Char.toNat) := by
  induction a generalizing b with
  | nil =>
    cases b with
    | nil => rfl
    | cons d t =>
      obtain ⟨y, l, hyl, -, -⟩ := appendRune_shape d.toNat (Char_validRune d)
      rw [str_cons, hyl]
      rfl
  | cons c s ih =>
    cases b with
    | nil =>
      obtain ⟨y, l, hyl, -, -⟩ := appendRune_shape c.toNat (Char_validRune c)
      rw [str_cons, hyl]
      rfl
    | cons d t =>
      rw [str_cons, str_cons]
      simp only [List.map_cons, codePointLess]
      rcases Nat.lt_trichotomy c.toNat d.toNat with h | h | h
      · rw [(stringLess_appendRune _ _ (Char_validRune c) (Char_validRune d) h _ _).1]
        simp [h]
      · rw [h, stringLess_append_same, ih]
        simp
      · rw [(stringLess_appendRune _ _ (Char_validRune d) (Char_validRune c) h _ _).2]
        have h' : ¬ c.toNat < d.toNat := by omega
        simp [h, h']

theorem stringLess_asymm (a b : GoString) (h : stringLess a b = true) :
    stringLess b a = false := by
  induction a generalizing b with
  | nil => cases b <;> simp [stringLess] at h ⊢
  | cons x a ih =>
    cases b with
    | nil => simp [stringLess] at h
    | cons y b =>
      simp only [stringLess] at h ⊢
      split_ifs at h ⊢ <;> first | rfl | omega | exact ih b h

theorem stringLess_trans (a b c : GoString) (h1 : stringLess a b = true)
    (h2 : stringLess b c = true) : stringLess a c = true := by
  induction a generalizing b c with
  | nil =>
    cases b with
    | nil => simp [stringLess] at h1
    | cons y b =>
      cases c with
      | nil => simp [stringLess] at h2
      | cons z c => rfl
  | cons x a ih =>
    cases b with
    | nil => simp [stringLess] at h1
    | cons y b =>
      cases c with
      | nil => simp [stringLess] at h2
      | cons z c =>
        simp only [stringLess] at h1 h2 ⊢
        split_ifs at h1 h2 ⊢ <;> first | rfl | omega | exact ih b c h1 h2

/-! ## Insertion sort -/

theorem insertBy_perm {α : Type} (less : α → α → Bool) (x : α) (ys : List α) :
    (insertBy less x ys).Perm (x :: ys) := by
  induction ys with
  | nil => exact List.Perm.refl _
  | cons y ys ih =>
    unfold insertBy
    split_ifs
    · exact List.Perm.refl _
    · exact (List.Perm.cons y ih).trans (List.Perm.swap x y ys)

theorem sortWith_perm {α : Type} (less : α → α → Bool) (xs : List α) :
    (sortWith less xs).Perm xs := by
  induction xs with
  | nil => exact List.Perm.refl _
  | cons x xs ih =>
    exact (insertBy_perm less x _).trans (List.Perm.cons x ih)

theorem insertBy_pairwise {α : Type} (less : α → α → Bool)
    (hasym : ∀ a b, less a b = true → less b a = false)
    (htrans : ∀ a b c, less a b = true → less b c = true → less a c = true)
    (x : α) (ys : List α) (h : ys.Pairwise (fun a b => less b a = false)) :
    (insertBy less x ys).Pairwise (fun a b => less b a = false) := by
  induction ys with
  | nil => simp [insertBy]
  | cons y ys ih =>
    rw [List.pairwise_cons] at h
    unfold insertBy
    split_ifs with hxy
    · refine List.pairwise_cons.2 ⟨?_, List.pairwise_cons.2 h⟩
      intro z hz
      rcases List.mem_cons.1 hz with rfl | hz
      · exact hasym _ _ hxy
      · cases hzx : less z x with
        | false => rfl
        | true =>
          have := htrans z x y hzx hxy
          rw [h.1 z hz] at this
          exact absurd this (by simp)
    · refine List.pairwise_cons.2 ⟨?_, ih h.2⟩
      intro z hz
      rcases List.mem_cons.1 ((insertBy_perm less x ys).mem_iff.1 hz) with rfl | hz
      · simpa using hxy
      · exact h.1 z hz

theorem sortWith_pairwise {α : Type} (less : α → α → Bool)
    (hasym : ∀ a b, less a b = true → less b a = false)
    (htrans : ∀ a b c, less a b = true → less b c = true → less a c = true)
    (xs : List α) : (sortWith less xs).Pairwise (fun a b => less b a = false) := by
  induction xs with
  | nil => exact List.Pairwise.nil
  | cons x xs ih => exact insertBy_pairwise less hasym htrans x _ ih

/-- Sorting the encodings of texts by byte order is sorting the texts by
code-point order. -/
theorem sortStrings_map_str (names : List String) :
    sortStrings (names.map str)
      = (sortWith (fun a b => codePointLess (runes a) (runes b)) names).map str := by
  unfold sortStrings
  induction names with
  | nil => rfl
  | cons x xs ih =>
    show insertBy stringLess (str x) (sortWith stringLess (xs.map str)) = _
    rw [ih]
    show _ = (insertBy _ x (sortWith _ xs)).map str
    generalize sortWith (fun a b => codePointLess (runes a) (runes b)) xs = ys
    induction ys with
    | nil => rfl
    | cons y ys ihy =>
      simp only [List.map_cons, insertBy]
      have e : stringLess (str x) (str y) = codePointLess (runes x) (runes y) :=
        stringLess_str x.data y.data
      rw [e]
      split_ifs
      · rfl
      · rw [ihy]; rfl

set_option maxRecDepth 8000

/-! ## `strconv.Quote` on printable text -/

theorem quoteLoop_skip (tbl : Nat → Bool) (l rest : GoString) :
    quoteLoop tbl l.length (l ++ rest) = quoteLoop tbl 0 rest := by
  induction l with
  | nil => rfl
  | cons b l ih => simp [quoteLoop, ih]

theorem appendEscapedRune_printable (tbl : Nat → Bool) (n : Nat) (hp : IsPrint tbl n = true)
    (hq : n ≠ 0x22) (hb : n ≠ 0x5C) : appendEscapedRune tbl n = appendRune n := by
  have h : ¬ (n = 0x22 ∨ n = 0x5C) := by omega
  simp only [appendEscapedRune, h, hp, if_true, if_false]

theorem quoteLoop_appendRune (tbl : Nat → Bool) (n : Nat) (hn : ValidRune n)
    (hp : IsPrint tbl n = true) (hq : n ≠ 0x22) (hb : n ≠ 0x5C) (rest : GoString) :
    quoteLoop tbl 0 (appendRune n ++ rest) = appendRune n ++ quoteLoop tbl 0 rest := by
  have hd := decode_appendRune n hn rest
  obtain ⟨b, l, hbl, hsmall, hbig⟩ := appendRune_shape n hn
  have he := appendEscapedRune_printable tbl n hp hq hb
  rw [hbl] at hd he ⊢
  simp only [List.cons_append] at hd ⊢
  by_cases hb80 : b.val < 0x80
  · obtain ⟨hl, hbn⟩ := hsmall hb80
    subst hl
    have h1 : ¬ 0x80 ≤ b.val := by omega
    have h2 : ¬ (True ∧ n = RuneError) := by
      unfold RuneError; omega
    simp only [quoteLoop, h1, if_false]
    rw [hbn, he, if_neg h2]
    rfl
  · obtain ⟨hl, _⟩ := hbig hb80
    have h1 : 0x80 ≤ b.val := by omega
    have hlen : ¬ (l.length + 1 = 1) := by
      cases l with
      | nil => exact absurd rfl hl
      | cons _ _ => simp
    simp only [quoteLoop, h1, if_true, hd, List.length_cons, hlen, false_and, if_false, he,
      Nat.add_sub_cancel, List.cons_append]
    rw [quoteLoop_skip]

/-- A text of printable characters other than the quote and the backslash is
quoted as itself. -/
theorem quoteLoop_str (tbl : Nat → Bool) (cs : List Char)
    (h : ∀ c ∈ cs, IsPrint tbl c.toNat = true ∧ c.toNat ≠ 0x22 ∧ c.toNat ≠ 0x5C)
    (rest : GoString) :
    quoteLoop tbl 0 (str ⟨cs⟩ ++ rest) = str ⟨cs⟩ ++ quoteLoop tbl 0 rest := by
  induction cs with
  | nil => rfl
  | cons c cs ih =>
    have hc := h c (List.mem_cons_self c cs)
    rw [str_cons, List.append_assoc,
      quoteLoop_appendRune tbl _ (Char_validRune c) hc.1 hc.2.1 hc.2.2,
      ih (fun d hd => h d (List.mem_cons_of_mem c hd)), List.append_assoc]

theorem quoteLoop_rolePrefix (tbl : Nat → Bool) (rest : GoString) :
    quoteLoop tbl 0 (str "/v1/auth/approle/role/" ++ rest)
      = str "/v1/auth/approle/role/" ++ quoteLoop tbl 0 rest := rfl

/-! ## The two format strings of `CreateAppRole` and the one of `ListAppRoles` -/

theorem Sprintf_rolePath (tbl : Nat → Bool) (name : GoString) :
    Sprintf tbl (str "/v1/auth/approle/role/%s") [name] = rolePath name := by
  have h : Sprintf tbl (str "/v1/auth/approle/role/%s") [name]
      = str "/v1/auth/approle/role/" ++ (name ++ []) := rfl
  rw [h, List.append_nil]
  rfl

theorem Sprintf_creating (tbl : Nat → Bool) (path : GoString) :
    Sprintf tbl (str "creating role at %q") [path]
      = str "creating role at " ++ Quote tbl path := by
  have h : Sprintf tbl (str "creating role at %q") [path]
      = str "creating role at " ++ (Quote tbl path ++ []) := rfl
  rw [h, List.append_nil]

theorem Sprintf_listing (tbl : Nat → Bool) :
    Sprintf tbl (str "failed to list token roles at %q") [basePath]
      = str "failed to list token roles at \"/auth/approle/role\"" := rfl

/-! ## What `json.Marshal` writes for `AppRoleOptions` -/

theorem scanFields_fields (r : AppRoleOptions) : scanFields r.fields =
    [ ⟨str "RoleName", false, false, .string r.RoleName⟩,
      ⟨str "secret_id_bound_cidrs", true, true, .strings r.SecretIDBoundCiders⟩,
      ⟨str "secret_id_num_uses", true, true, .int r.SecretIDNumUses⟩,
      ⟨str "secret_id_ttl", true, true, .string r.SecretIDTTL⟩,
      ⟨str "enable_local_secret_ids", true, true, .bool r.EnableLocalSecretIDs⟩,
      ⟨str "token_ttl", true, true, .int r.TokenTTL⟩,
      ⟨str "token_max_ttl", true, true, .int r.TokenMaxTTL⟩,
      ⟨str "token_policies", true, true, .strings r.TokenPolicies⟩,
      ⟨str "token_bound_cidrs", true, true, .strings r.TokenBoundCIDRs⟩,
      ⟨str "token_explicit_max_ttl", true, true, .int r.TokenExplicitMaxTTL⟩,
      ⟨str "token_no_default_policy", true, true, .bool r.TokenNoDefaultPolicy⟩,
      ⟨str "token_num_uses", true, true, .int r.TokenNumUses⟩,
      ⟨str "token_period", true, true, .int r.TokenPeriod⟩,
      ⟨str "token_type", true, true, .string r.TokenType⟩ ] := rfl

/-- The fields `encoding/json` finds in `AppRoleOptions`: `RoleName` keeps its
Go name, because its tag is not of the form `key:"value"`, and has no options;
`bind_secret_id` is not exported and is not a field of the document. -/
theorem typeFields_fields (r : AppRoleOptions) : typeFields r.fields =
    [ ⟨str "RoleName", false, false, .string r.RoleName⟩,
      ⟨str "secret_id_bound_cidrs", true, true, .strings r.SecretIDBoundCiders⟩,
      ⟨str "secret_id_num_uses", true, true, .int r.SecretIDNumUses⟩,
      ⟨str "secret_id_ttl", true, true, .string r.SecretIDTTL⟩,
      ⟨str "enable_local_secret_ids", true, true, .bool r.EnableLocalSecretIDs⟩,
      ⟨str "token_ttl", true, true, .int r.TokenTTL⟩,
      ⟨str "token_max_ttl", true, true, .int r.TokenMaxTTL⟩,
      ⟨str "token_policies", true, true, .strings r.TokenPolicies⟩,
      ⟨str "token_bound_cidrs", true, true, .strings r.TokenBoundCIDRs⟩,
      ⟨str "token_explicit_max_ttl", true, true, .int r.TokenExplicitMaxTTL⟩,
      ⟨str "token_no_default_policy", true, true, .bool r.TokenNoDefaultPolicy⟩,
      ⟨str "token_num_uses", true, true, .int r.TokenNumUses⟩,
      ⟨str "token_period", true, true, .int r.TokenPeriod⟩,
      ⟨str "token_type", true, true, .string r.TokenType⟩ ] := by
  unfold typeFields
  rw [scanFields_fields, List.filter_eq_self]
  intro f hf
  simp only [List.mem_cons, List.mem_singleton, List.not_mem_nil, or_false] at hf
  rcases hf with rfl | rfl | rfl | rfl | rfl | rfl | rfl | rfl | rfl | rfl | rfl | rfl | rfl
    | rfl
  all_goals simp only [List.map_cons, List.map_nil]
  all_goals decide

theorem mem_structEncoder (fs : List field) (k : GoString) (v : JSONValue) :
    (k, v) ∈ structEncoder fs ↔
      ∃ f ∈ fs, (f.omitEmpty && isEmptyValue f.value) = false ∧ f.name = k
        ∧ encodeValue f.value = v := by
  unfold structEncoder
  rw [List.mem_filterMap]
  constructor
  · rintro ⟨f, hf, h⟩
    refine ⟨f, hf, ?_⟩
    split_ifs at h with hc
    simp only [Option.some.injEq, Prod.mk.injEq] at h
    exact ⟨by simpa using hc, h.1, h.2⟩
  · rintro ⟨f, hf, hc, hk, hv⟩
    refine ⟨f, hf, ?_⟩
    rw [hc, ← hk, ← hv]
    rfl

theorem mem_keys_structEncoder (fs : List field) (k : GoString) :
    k ∈ keys (structEncoder fs) ↔
      ∃ f ∈ fs, (f.omitEmpty && isEmptyValue f.value) = false ∧ f.name = k := by
  unfold keys
  rw [List.mem_map]
  constructor
  · rintro ⟨⟨k', v⟩, h, rfl⟩
    obtain ⟨f, hf, hc, hk, -⟩ := (mem_structEncoder fs k' v).1 h
    exact ⟨f, hf, hc, hk⟩
  · rintro ⟨f, hf, hc, hk⟩
    exact ⟨(k, encodeValue f.value), (mem_structEncoder fs k _).2 ⟨f, hf, hc, hk, rfl⟩, rfl⟩


theorem Marshal_eq (r : AppRoleOptions) :
    Marshal r = .ok (structEncoder (typeFields r.fields)) := rfl

/-! ## The calls `CreateAppRole` makes and what it returns -/

theorem CreateAppRole_calls (tbl : Nat → Bool) (c : client) (r : AppRoleOptions) :
    (CreateAppRole tbl c r).calls
      = [.logPrintf (str "role-create request: %v") (structEncoder (typeFields r.fields)),
         .post (rolePath r.RoleName) (structEncoder (typeFields r.fields))] := by
  simp only [CreateAppRole, Marshal, Sprintf_rolePath]
  split <;> rfl

theorem CreateAppRole_err (tbl : Nat → Bool) (c : client) (r : AppRoleOptions) :
    (CreateAppRole tbl c r).err
      = (c.post (rolePath r.RoleName) (structEncoder (typeFields r.fields))).map
          (fun e => .withStack
            (.withMessage e (str "creating role at " ++ Quote tbl (rolePath r.RoleName)))) := by
  simp only [CreateAppRole, Marshal, Sprintf_rolePath]
  split <;> rename_i h <;> simp [h, Wrapf, Sprintf_creating]

theorem CreateAppRole_requests (tbl : Nat → Bool) (c : client) (r : AppRoleOptions) :
    requests (CreateAppRole tbl c r).calls
      = [.post (rolePath r.RoleName) (structEncoder (typeFields r.fields))] := by
  rw [CreateAppRole_calls]
  rfl

/-! ## The claims -/

/-- C1, as stated, fails: with the empty name and a transport that accepts the
write, `CreateAppRole` returns no error and has posted to
`/v1/auth/approle/role/`. -/
theorem CreateAppRole_empty_name_is_posted :
    (CreateAppRole noTable acceptAll { RoleName := [] }).err = none
      ∧ requests (CreateAppRole noTable acceptAll { RoleName := [] }).calls
        = [.post (str "/v1/auth/approle/role/") [(str "RoleName", .string [])]] := by
  rw [CreateAppRole_err, CreateAppRole_requests, typeFields_fields]
  constructor <;> rfl

/-- C1, amended: for every `AppRoleOptions` whose name is empty,
`CreateAppRole` makes no local check; it issues exactly one request, a post to
`/v1/auth/approle/role/` with the serialized options as body, and returns an
error exactly when the transport rejects that request. -/
theorem CreateAppRole_empty_name (tbl : Nat → Bool) (c : client) (r : AppRoleOptions)
    (h : r.RoleName = []) :
    ∃ body, Marshal r = .ok body
      ∧ requests (CreateAppRole tbl c r).calls = [.post (str "/v1/auth/approle/role/") body]
      ∧ ((CreateAppRole tbl c r).err = none ↔ c.post (str "/v1/auth/approle/role/") body = none)
      := by
  refine ⟨_, Marshal_eq r, ?_, ?_⟩
  · rw [CreateAppRole_requests, h]; rfl
  · rw [CreateAppRole_err, h]
    show Option.map _ (c.post (str "/v1/auth/approle/role/") _) = none ↔ _
    simp

/-- C1, amended, at the empty name and a transport that accepts every write. -/
theorem CreateAppRole_empty_name_witness :
    ∃ body, Marshal { RoleName := [] } = .ok body
      ∧ requests (CreateAppRole noTable acceptAll { RoleName := [] }).calls
        = [.post (str "/v1/auth/approle/role/") body]
      ∧ ((CreateAppRole noTable acceptAll { RoleName := [] }).err = none
          ↔ acceptAll.post (str "/v1/auth/approle/role/") body = none) :=
  CreateAppRole_empty_name noTable acceptAll { RoleName := [] } rfl

/-- C7, as stated, fails: with the name `a/b` and a transport that accepts
the write, `CreateAppRole` returns no error and has posted to
`/v1/auth/approle/role/a/b`. -/
theorem CreateAppRole_slash_name_is_posted :
    (CreateAppRole noTable acceptAll { RoleName := str "a/b" }).err = none
      ∧ requests (CreateAppRole noTable acceptAll { RoleName := str "a/b" }).calls
        = [.post (str "/v1/auth/approle/role/a/b") [(str "RoleName", .string (str "a/b"))]] := by
  rw [CreateAppRole_err, CreateAppRole_requests, typeFields_fields]
  constructor <;> rfl

theorem count_slash_rolePath (name : GoString) :
    (rolePath name).count 0x2F = 5 + name.count 0x2F := by
  unfold rolePath
  rw [List.count_append]
  rfl

/-- C7, amended: for every name that contains `/`, `CreateAppRole` makes no
local check; it issues exactly one request, a post whose path is
`/v1/auth/approle/role/` followed by the name as given, so that the path has
more separators than the five of the fixed part, and returns an error exactly
when the transport rejects that request. -/
theorem CreateAppRole_slash_name (tbl : Nat → Bool) (c : client) (r : AppRoleOptions)
    (h : (0x2F : Byte) ∈ r.RoleName) :
    ∃ body, Marshal r = .ok body
      ∧ requests (CreateAppRole tbl c r).calls
        = [.post (str "/v1/auth/approle/role/" ++ r.RoleName) body]
      ∧ 5 < (str "/v1/auth/approle/role/" ++ r.RoleName).count 0x2F
      ∧ ((CreateAppRole tbl c r).err = none
          ↔ c.post (str "/v1/auth/approle/role/" ++ r.RoleName) body = none) := by
  refine ⟨_, Marshal_eq r, CreateAppRole_requests tbl c r, ?_, ?_⟩
  · have h1 := count_slash_rolePath r.RoleName
    have h2 : 0 < r.RoleName.count 0x2F := List.count_pos_iff.2 h
    unfold rolePath at h1
    omega
  · rw [CreateAppRole_err]
    show Option.map _ (c.post (str "/v1/auth/approle/role/" ++ r.RoleName) _) = none ↔ _
    simp

/-- C7, amended, at the name `../x` and a transport that accepts every write. -/
theorem CreateAppRole_slash_name_witness :
    (0x2F : Byte) ∈ str "../x"
      ∧ ∃ body, Marshal { RoleName := str "../x" } = .ok body
        ∧ requests (CreateAppRole noTable acceptAll { RoleName := str "../x" }).calls
          = [.post (str "/v1/auth/approle/role/" ++ str "../x") body]
        ∧ 5 < (str "/v1/auth/approle/role/" ++ str "../x").count 0x2F
        ∧ ((CreateAppRole noTable acceptAll { RoleName := str "../x" }).err = none
            ↔ acceptAll.post (str "/v1/auth/approle/role/" ++ str "../x") body = none) :=
  ⟨by decide, CreateAppRole_slash_name noTable acceptAll { RoleName := str "../x" } (by decide)⟩

/-- C10: for every `AppRoleOptions` with a non-empty name, serialization
succeeds, and `CreateAppRole` issues exactly one request to the transport, a
post whose path is `/v1/auth/approle/role/` followed by the name as given and
whose body is the serialization; it returns no error exactly when the
transport accepts that write, and an error exactly when the transport rejects
it. The proof makes no use of the hypothesis on the name. -/
theorem CreateAppRole_single_post (tbl : Nat → Bool) (c : client) (r : AppRoleOptions)
    (_h : r.RoleName ≠ []) :
    ∃ body, Marshal r = .ok body
      ∧ requests (CreateAppRole tbl c r).calls
        = [.post (str "/v1/auth/approle/role/" ++ r.RoleName) body]
      ∧ ((CreateAppRole tbl c r).err = none
          ↔ c.post (str "/v1/auth/approle/role/" ++ r.RoleName) body = none)
      ∧ ((CreateAppRole tbl c r).err.isSome = true
          ↔ (c.post (str "/v1/auth/approle/role/" ++ r.RoleName) body).isSome = true) := by
  refine ⟨_, Marshal_eq r, CreateAppRole_requests tbl c r, ?_, ?_⟩
  · rw [CreateAppRole_err]
    show Option.map _ (c.post (str "/v1/auth/approle/role/" ++ r.RoleName) _) = none ↔ _
    simp
  · rw [CreateAppRole_err]
    show (Option.map _ (c.post (str "/v1/auth/approle/role/" ++ r.RoleName) _)).isSome = true ↔ _
    simp

/-- C10 at the name `ci-runner` and a transport that accepts every write. -/
theorem CreateAppRole_single_post_witness :
    str "ci-runner" ≠ []
      ∧ ∃ body, Marshal { RoleName := str "ci-runner" } = .ok body
        ∧ requests (CreateAppRole noTable acceptAll { RoleName := str "ci-runner" }).calls
          = [.post (str "/v1/auth/approle/role/" ++ str "ci-runner") body]
        ∧ ((CreateAppRole noTable acceptAll { RoleName := str "ci-runner" }).err = none
            ↔ acceptAll.post (str "/v1/auth/approle/role/" ++ str "ci-runner") body = none)
        ∧ ((CreateAppRole noTable acceptAll { RoleName := str "ci-runner" }).err.isSome = true
            ↔ (acceptAll.post (str "/v1/auth/approle/role/" ++ str "ci-runner") body).isSome
              = true) :=
  ⟨by decide, CreateAppRole_single_post noTable acceptAll { RoleName := str "ci-runner" }
    (by decide)⟩

/-- C2: for every `AppRoleOptions` serialization succeeds, the body has the
member for the name whatever the name is, every key of the body is the name's
or that of an optional field whose value is not the zero value, and so the key
of an optional field at its zero value (`false`, `0`, the empty string, an
empty or nil slice, the zero duration) is not in the body. -/
theorem Marshal_omits_zero_fields (r : AppRoleOptions) :
    ∃ body, Marshal r = .ok body
      ∧ (str "RoleName", JSONValue.string (toValidUTF8 0 r.RoleName)) ∈ body
      ∧ (∀ k ∈ keys body, k = str "RoleName"
          ∨ (k = str "secret_id_bound_cidrs" ∧ r.SecretIDBoundCiders.elems ≠ [])
          ∨ (k = str "secret_id_num_uses" ∧ r.SecretIDNumUses ≠ 0)
          ∨ (k = str "secret_id_ttl" ∧ r.SecretIDTTL ≠ [])
          ∨ (k = str "enable_local_secret_ids" ∧ r.EnableLocalSecretIDs ≠ false)
          ∨ (k = str "token_ttl" ∧ r.TokenTTL ≠ 0)
          ∨ (k = str "token_max_ttl" ∧ r.TokenMaxTTL ≠ 0)
          ∨ (k = str "token_policies" ∧ r.TokenPolicies.elems ≠ [])
          ∨ (k = str "token_bound_cidrs" ∧ r.TokenBoundCIDRs.elems ≠ [])
          ∨ (k = str "token_explicit_max_ttl" ∧ r.TokenExplicitMaxTTL ≠ 0)
          ∨ (k = str "token_no_default_policy" ∧ r.TokenNoDefaultPolicy ≠ false)
          ∨ (k = str "token_num_uses" ∧ r.TokenNumUses ≠ 0)
          ∨ (k = str "token_period" ∧ r.TokenPeriod ≠ 0)
          ∨ (k = str "token_type" ∧ r.TokenType ≠ []))
      ∧ (r.bind_secret_id = false → str "bind_secret_id" ∉ keys body)
      ∧ (r.SecretIDBoundCiders.elems = [] → str "secret_id_bound_cidrs" ∉ keys body)
      ∧ (r.SecretIDNumUses = 0 → str "secret_id_num_uses" ∉ keys body)
      ∧ (r.SecretIDTTL = [] → str "secret_id_ttl" ∉ keys body)
      ∧ (r.EnableLocalSecretIDs = false → str "enable_local_secret_ids" ∉ keys body)
      ∧ (r.TokenTTL = 0 → str "token_ttl" ∉ keys body)
      ∧ (r.TokenMaxTTL = 0 → str "token_max_ttl" ∉ keys body)
      ∧ (r.TokenPolicies.elems = [] → str "token_policies" ∉ keys body)
      ∧ (r.TokenBoundCIDRs.elems = [] → str "token_bound_cidrs" ∉ keys body)
      ∧ (r.TokenExplicitMaxTTL = 0 → str "token_explicit_max_ttl" ∉ keys body)
      ∧ (r.TokenNoDefaultPolicy = false → str "token_no_default_policy" ∉ keys body)
      ∧ (r.TokenNumUses = 0 → str "token_num_uses" ∉ keys body)
      ∧ (r.TokenPeriod = 0 → str "token_period" ∉ keys body)
      ∧ (r.TokenType = [] → str "token_type" ∉ keys body) := by
  refine ⟨_, Marshal_eq r, ?_, ?_, ?_, ?_, ?_, ?_, ?_, ?_, ?_, ?_, ?_, ?_, ?_, ?_, ?_, ?_⟩
  · rw [mem_structEncoder, typeFields_fields]
    exact ⟨_, List.mem_cons_self _ _, rfl, rfl, rfl⟩
  · intro k hk
    rw [mem_keys_structEncoder, typeFields_fields] at hk
    simp only [List.mem_cons, List.mem_singleton, List.not_mem_nil, or_false] at hk
    obtain ⟨f, hf, hc, rfl⟩ := hk
    rcases hf with rfl | rfl | rfl | rfl | rfl | rfl | rfl | rfl | rfl | rfl | rfl | rfl | rfl
      | rfl
    all_goals simp [isEmptyValue] at hc
    all_goals simp [hc]
  all_goals
    intro h
    rw [mem_keys_structEncoder, typeFields_fields]
    simp +decide [isEmptyValue, h]

/-- C5 fails on the code at the name `ci-runner` with a `TokenTTL` of 3600
seconds: the body is `RoleName = "ci-runner"`, `token_ttl = 3600000000000`,
the `time.Duration` being written as its count of nanoseconds; the body has
no member `token_ttl = 3600` and no key `role_name`. It has no key
`secret_id_ttl`, as the claim says. -/
theorem Marshal_ci_runner_nanoseconds :
    Marshal { RoleName := str "ci-runner", TokenTTL := 3600 * Second }
        = .ok [(str "RoleName", .string (str "ci-runner")),
               (str "token_ttl", .number 3600000000000)]
      ∧ (str "token_ttl", JSONValue.number 3600)
          ∉ structEncoder (typeFields
              (AppRoleOptions.fields { RoleName := str "ci-runner", TokenTTL := 3600 * Second }))
      ∧ str "role_name"
          ∉ keys (structEncoder (typeFields
              (AppRoleOptions.fields { RoleName := str "ci-runner", TokenTTL := 3600 * Second })))
      ∧ str "secret_id_ttl"
          ∉ keys (structEncoder (typeFields
              (AppRoleOptions.fields { RoleName := str "ci-runner", TokenTTL := 3600 * Second })))
      := by
  rw [Marshal_eq, typeFields_fields]
  refine ⟨rfl, ?_, ?_, ?_⟩ <;> decide

/-- C6, as stated, fails: for the name that is the single byte `0xFF` the
mapping read back has one key, and its value is the three bytes of U+FFFD, not
the name. -/
theorem roundtrip_invalid_name :
    Marshal { RoleName := [0xFF] } = .ok [(str "RoleName", .string [0xEF, 0xBF, 0xBD])]
      ∧ unmarshalMap [(str "RoleName", .string [0xEF, 0xBF, 0xBD])]
          = [(str "RoleName", .string [0xEF, 0xBF, 0xBD])]
      ∧ ¬ ∃ k, unmarshalMap [(str "RoleName", .string [0xEF, 0xBF, 0xBD])]
          = [(k, JSONValue.string [0xFF])] := by
  refine ⟨?_, by decide, ?_⟩
  · rw [Marshal_eq, typeFields_fields]
    rfl
  rintro ⟨k, hk⟩
  have h : unmarshalMap [(str "RoleName", .string [0xEF, 0xBF, 0xBD])]
      = [(str "RoleName", .string [0xEF, 0xBF, 0xBD])] := by decide
  rw [h] at hk
  simp only [List.cons.injEq, Prod.mk.injEq, JSONValue.string.injEq, and_true] at hk
  exact absurd hk.2 (by decide)

theorem Marshal_only_name (name : GoString) :
    Marshal { RoleName := name } = .ok [(str "RoleName", .string (toValidUTF8 0 name))] := by
  rw [Marshal_eq, typeFields_fields]
  rfl

/-- C6, amended: for every name, serializing an `AppRoleOptions` that has
only the name set and reading the result back as a generic mapping yields a
mapping with exactly one key; its value is the name with every byte that does
not belong to a well-formed UTF-8 encoding replaced by U+FFFD, and so it is
the name itself whenever the name is the UTF-8 encoding of a text. -/
theorem roundtrip_only_name (name : GoString) :
    ∃ body, Marshal { RoleName := name } = .ok body
      ∧ (∃ k, unmarshalMap body = [(k, JSONValue.string (toValidUTF8 0 name))])
      ∧ (∀ text : String, name = str text →
          ∃ k, unmarshalMap body = [(k, JSONValue.string name)]) := by
  refine ⟨_, Marshal_only_name name, ⟨str "RoleName", rfl⟩, ?_⟩
  intro text ht
  refine ⟨str "RoleName", ?_⟩
  have h : toValidUTF8 0 (str text ++ []) = str text ++ toValidUTF8 0 [] :=
    toValidUTF8_str text.data []
  have h0 : toValidUTF8 0 [] = [] := rfl
  rw [h0, List.append_nil] at h
  have e : toValidUTF8 0 name = name := by rw [ht]; exact h
  rw [e]
  rfl

/-- C8 fails on the code at `RoleName = "r"`, `bind_secret_id = true`: the body
is the name alone. For every `AppRoleOptions` the body has no key
`bind_secret_id`, while each of the other thirteen optional fields that is not
at its zero value is in the body under its key with its value. -/
theorem Marshal_drops_bind_secret_id :
    Marshal { RoleName := str "r", bind_secret_id := true }
        = .ok [(str "RoleName", .string (str "r"))]
      ∧ (∀ r : AppRoleOptions, str "bind_secret_id" ∉ keys (structEncoder (typeFields r.fields)))
      ∧ (∀ r : AppRoleOptions, ∃ body, Marshal r = .ok body
        ∧ (r.SecretIDBoundCiders.elems ≠ [] → (str "secret_id_bound_cidrs",
            JSONValue.strings (r.SecretIDBoundCiders.elems.map (toValidUTF8 0))) ∈ body)
        ∧ (r.SecretIDNumUses ≠ 0
            → (str "secret_id_num_uses", JSONValue.number r.SecretIDNumUses) ∈ body)
        ∧ (r.SecretIDTTL ≠ []
            → (str "secret_id_ttl", JSONValue.string (toValidUTF8 0 r.SecretIDTTL)) ∈ body)
        ∧ (r.EnableLocalSecretIDs = true
            → (str "enable_local_secret_ids", JSONValue.bool true) ∈ body)
        ∧ (r.TokenTTL ≠ 0 → (str "token_ttl", JSONValue.number r.TokenTTL) ∈ body)
        ∧ (r.TokenMaxTTL ≠ 0 → (str "token_max_ttl", JSONValue.number r.TokenMaxTTL) ∈ body)
        ∧ (r.TokenPolicies.elems ≠ [] → (str "token_policies",
            JSONValue.strings (r.TokenPolicies.elems.map (toValidUTF8 0))) ∈ body)
        ∧ (r.TokenBoundCIDRs.elems ≠ [] → (str "token_bound_cidrs",
            JSONValue.strings (r.TokenBoundCIDRs.elems.map (toValidUTF8 0))) ∈ body)
        ∧ (r.TokenExplicitMaxTTL ≠ 0
            → (str "token_explicit_max_ttl", JSONValue.number r.TokenExplicitMaxTTL) ∈ body)
        ∧ (r.TokenNoDefaultPolicy = true
            → (str "token_no_default_policy", JSONValue.bool true) ∈ body)
        ∧ (r.TokenNumUses ≠ 0 → (str "token_num_uses", JSONValue.number r.TokenNumUses) ∈ body)
        ∧ (r.TokenPeriod ≠ 0 → (str "token_period", JSONValue.number r.TokenPeriod) ∈ body)
        ∧ (r.TokenType ≠ []
            → (str "token_type", JSONValue.string (toValidUTF8 0 r.TokenType)) ∈ body)) := by
  refine ⟨by rw [Marshal_eq, typeFields_fields]; rfl, ?_, ?_⟩
  · intro r
    rw [mem_keys_structEncoder, typeFields_fields]
    simp +decide
  · intro r
    refine ⟨_, Marshal_eq r, ?_, ?_, ?_, ?_, ?_, ?_, ?_, ?_, ?_, ?_, ?_, ?_, ?_⟩
    · intro h
      rw [mem_structEncoder, typeFields_fields]
      refine ⟨⟨str "secret_id_bound_cidrs", true, true, .strings r.SecretIDBoundCiders⟩, by simp,
        by simpa [isEmptyValue] using h, rfl, ?_⟩
      cases hs : r.SecretIDBoundCiders with
      | none => simp [hs, StringSlice.elems] at h
      | some xs => rfl
    · intro h
      rw [mem_structEncoder, typeFields_fields]
      exact ⟨⟨str "secret_id_num_uses", true, true, .int r.SecretIDNumUses⟩, by simp,
        by simp [isEmptyValue, h], rfl, rfl⟩
    · intro h
      rw [mem_structEncoder, typeFields_fields]
      exact ⟨⟨str "secret_id_ttl", true, true, .string r.SecretIDTTL⟩, by simp,
        by simp [isEmptyValue, h], rfl, rfl⟩
    · intro h
      rw [mem_structEncoder, typeFields_fields]
      exact ⟨⟨str "enable_local_secret_ids", true, true, .bool r.EnableLocalSecretIDs⟩, by simp,
        by simp [isEmptyValue, h], rfl, by rw [h]; rfl⟩
    · intro h
      rw [mem_structEncoder, typeFields_fields]
      exact ⟨⟨str "token_ttl", true, true, .int r.TokenTTL⟩, by simp, by simp [isEmptyValue, h],
        rfl, rfl⟩
    · intro h
      rw [mem_structEncoder, typeFields_fields]
      exact ⟨⟨str "token_max_ttl", true, true, .int r.TokenMaxTTL⟩, by simp,
        by simp [isEmptyValue, h], rfl, rfl⟩
    · intro h
      rw [mem_structEncoder, typeFields_fields]
      refine ⟨⟨str "token_policies", true, true, .strings r.TokenPolicies⟩, by simp,
        by simpa [isEmptyValue] using h, rfl, ?_⟩
      cases hs : r.TokenPolicies with
      | none => simp [hs, StringSlice.elems] at h
      | some xs => rfl
    · intro h
      rw [mem_structEncoder, typeFields_fields]
      refine ⟨⟨str "token_bound_cidrs", true, true, .strings r.TokenBoundCIDRs⟩, by simp,
        by simpa [isEmptyValue] using h, rfl, ?_⟩
      cases hs : r.TokenBoundCIDRs with
      | none => simp [hs, StringSlice.elems] at h
      | some xs => rfl
    · intro h
      rw [mem_structEncoder, typeFields_fields]
      exact ⟨⟨str "token_explicit_max_ttl", true, true, .int r.TokenExplicitMaxTTL⟩, by simp,
        by simp [isEmptyValue, h], rfl, rfl⟩
    · intro h
      rw [mem_structEncoder, typeFields_fields]
      exact ⟨⟨str "token_no_default_policy", true, true, .bool r.TokenNoDefaultPolicy⟩, by simp,
        by simp [isEmptyValue, h], rfl, by rw [h]; rfl⟩
    · intro h
      rw [mem_structEncoder, typeFields_fields]
      exact ⟨⟨str "token_num_uses", true, true, .int r.TokenNumUses⟩, by simp,
        by simp [isEmptyValue, h], rfl, rfl⟩
    · intro h
      rw [mem_structEncoder, typeFields_fields]
      exact ⟨⟨str "token_period", true, true, .int r.TokenPeriod⟩, by simp,
        by simp [isEmptyValue, h], rfl, rfl⟩
    · intro h
      rw [mem_structEncoder, typeFields_fields]
      exact ⟨⟨str "token_type", true, true, .string r.TokenType⟩, by simp,
        by simp [isEmptyValue, h], rfl, rfl⟩

theorem ListAppRoles_ok (tbl : Nat → Bool) (c : client) (w : rolesWrapper)
    (h : c.list basePath = (none, w)) :
    ListAppRoles tbl c = ⟨w.Data.Keys.map sortStrings, none, [.list basePath]⟩ := by
  simp only [ListAppRoles, h]

theorem ListAppRoles_failed (tbl : Nat → Bool) (c : client) (e : GoError) (w : rolesWrapper)
    (h : c.list basePath = (some e, w)) :
    ListAppRoles tbl c
      = ⟨none, some (.withStack
            (.withMessage e (str "failed to list token roles at \"/auth/approle/role\""))),
          [.list basePath]⟩ := by
  simp only [ListAppRoles, h, Wrapf, Sprintf_listing]

theorem codePointLess_eq (a b : String) :
    codePointLess (runes a) (runes b) = stringLess (str a) (str b) :=
  (stringLess_str a.data b.data).symm

/-- C3: when the list request succeeds, `ListAppRoles` returns no error and a
sequence that is a permutation of the names reported under `data.keys` and is
in increasing order of Go's string comparison; when the names are the UTF-8
encodings of texts, as the strings of a JSON response are, that is increasing
code-point order; and the keys `z`, `a`, `m` yield `a`, `m`, `z`. -/
theorem ListAppRoles_sorted_permutation (tbl : Nat → Bool) (c : client) (w : rolesWrapper)
    (h : c.list basePath = (none, w)) :
    (ListAppRoles tbl c).err = none
      ∧ (ListAppRoles tbl c).roles.elems.Perm w.Data.Keys.elems
      ∧ (ListAppRoles tbl c).roles.elems.Pairwise (fun a b => stringLess b a = false)
      ∧ (∀ names : List String, w.Data.Keys = some (names.map str) →
          ∃ sorted : List String, (ListAppRoles tbl c).roles = some (sorted.map str)
            ∧ sorted.Perm names
            ∧ sorted.Pairwise (fun a b => codePointLess (runes b) (runes a) = false))
      ∧ (w.Data.Keys = some [str "z", str "a", str "m"]
          → (ListAppRoles tbl c).roles = some [str "a", str "m", str "z"]) := by
  rw [ListAppRoles_ok tbl c w h]
  refine ⟨rfl, ?_, ?_, ?_, ?_⟩
  · cases hk : w.Data.Keys with
    | none => exact List.Perm.refl _
    | some xs => exact sortWith_perm stringLess xs
  · cases hk : w.Data.Keys with
    | none => exact List.Pairwise.nil
    | some xs => exact sortWith_pairwise stringLess stringLess_asymm stringLess_trans xs
  · intro names hn
    refine ⟨sortWith (fun a b => codePointLess (runes a) (runes b)) names, ?_,
      sortWith_perm _ names, ?_⟩
    · show Option.map sortStrings w.Data.Keys = _
      rw [hn, ← sortStrings_map_str]
      rfl
    · apply sortWith_pairwise
      · intro a b hab
        rw [codePointLess_eq] at hab ⊢
        exact stringLess_asymm _ _ hab
      · intro a b d hab hbd
        rw [codePointLess_eq] at hab hbd ⊢
        exact stringLess_trans _ _ _ hab hbd
  · intro hk
    show Option.map sortStrings w.Data.Keys = _
    rw [hk]
    decide

/-- C3 at a transport that reports the keys `z`, `a`, `m`. -/
theorem ListAppRoles_sorted_permutation_witness :
    (reporting (some [str "z", str "a", str "m"])).list basePath
        = (none, ⟨⟨some [str "z", str "a", str "m"]⟩⟩)
      ∧ (ListAppRoles noTable (reporting (some [str "z", str "a", str "m"]))).err = none
      ∧ (ListAppRoles noTable (reporting (some [str "z", str "a", str "m"]))).roles.elems.Perm
          (StringSlice.elems (some [str "z", str "a", str "m"]))
      ∧ (ListAppRoles noTable (reporting (some [str "z", str "a", str "m"]))).roles.elems.Pairwise
          (fun a b => stringLess b a = false)
      ∧ (ListAppRoles noTable (reporting (some [str "z", str "a", str "m"]))).roles
          = some [str "a", str "m", str "z"] := by
  have h := ListAppRoles_sorted_permutation noTable
    (reporting (some [str "z", str "a", str "m"])) ⟨⟨some [str "z", str "a", str "m"]⟩⟩ rfl
  exact ⟨rfl, h.1, h.2.1, h.2.2.1, h.2.2.2.2 rfl⟩

/-- C9: when the list request fails with the error `e`, `ListAppRoles` returns
the nil slice and an error that wraps `e`: it is the `withStack` around the
`withMessage` whose cause is `e`, so that `e` is reached by two steps of
`Unwrap()` and `errors.Cause` of it is `errors.Cause` of `e`; its message is
`failed to list token roles at "/auth/approle/role": ` followed by the message
of `e`, so that it names the list operation and the path; the only call made
is the one list request. -/
theorem ListAppRoles_transport_failure (tbl : Nat → Bool) (c : client) (e : GoError)
    (w : rolesWrapper) (h : c.list basePath = (some e, w)) :
    (ListAppRoles tbl c).roles = none
      ∧ (∃ err, (ListAppRoles tbl c).err = some err
          ∧ err = .withStack
              (.withMessage e (str "failed to list token roles at \"/auth/approle/role\""))
          ∧ (∃ inner, err.Unwrap = some inner ∧ inner.Unwrap = some e)
          ∧ Cause err = Cause e
          ∧ err.Error = str "failed to list token roles at \"/auth/approle/role\": " ++ e.Error
          ∧ str "failed to list" <:+: err.Error
          ∧ str "/auth/approle/role" <:+: err.Error)
      ∧ (ListAppRoles tbl c).calls = [.list (str "/auth/approle/role")] := by
  rw [ListAppRoles_failed tbl c e w h]
  refine ⟨rfl, ⟨_, rfl, rfl, ⟨_, rfl, rfl⟩, rfl, ?_, ?_, ?_⟩, rfl⟩
  · show str "failed to list token roles at \"/auth/approle/role\"" ++ str ": " ++ e.Error = _
    rfl
  · show _ <:+: str "failed to list token roles at \"/auth/approle/role\"" ++ str ": " ++ e.Error
    exact ⟨[], str " token roles at \"/auth/approle/role\"" ++ str ": " ++ e.Error, rfl⟩
  · show _ <:+: str "failed to list token roles at \"/auth/approle/role\"" ++ str ": " ++ e.Error
    exact ⟨str "failed to list token roles at \"", str "\"" ++ str ": " ++ e.Error, rfl⟩

/-- C9 at a transport whose list request fails with `connection refused`. -/
theorem ListAppRoles_transport_failure_witness :
    (failWith (.base (str "connection refused"))).list basePath
        = (some (.base (str "connection refused")), {})
      ∧ (ListAppRoles noTable (failWith (.base (str "connection refused")))).roles = none
      ∧ (∃ err, (ListAppRoles noTable (failWith (.base (str "connection refused")))).err
            = some err
          ∧ err = .withStack (.withMessage (.base (str "connection refused"))
              (str "failed to list token roles at \"/auth/approle/role\""))
          ∧ (∃ inner, err.Unwrap = some inner
              ∧ inner.Unwrap = some (.base (str "connection refused")))
          ∧ Cause err = Cause (.base (str "connection refused"))
          ∧ err.Error = str "failed to list token roles at \"/auth/approle/role\": "
              ++ GoError.Error (.base (str "connection refused"))
          ∧ str "failed to list" <:+: err.Error
          ∧ str "/auth/approle/role" <:+: err.Error)
      ∧ (ListAppRoles noTable (failWith (.base (str "connection refused")))).calls
          = [.list (str "/auth/approle/role")] :=
  ⟨rfl, ListAppRoles_transport_failure noTable (failWith (.base (str "connection refused")))
    (.base (str "connection refused")) {} rfl⟩

/-- C4, as stated, fails: for the name `a"b` and a transport that rejects the
write with the error `boom`, the message of the error returned is
`creating role at "/v1/auth/approle/role/a\"b": boom`, in which the path
`/v1/auth/approle/role/a"b` does not occur. -/
theorem CreateAppRole_quoted_path_differs :
    (CreateAppRole noTable (failWith (.base (str "boom"))) { RoleName := str "a\"b" }).err
        = some (.withStack (.withMessage (.base (str "boom"))
            (str "creating role at \"/v1/auth/approle/role/a\\\"b\"")))
      ∧ GoError.Error (.withStack (.withMessage (.base (str "boom"))
            (str "creating role at \"/v1/auth/approle/role/a\\\"b\"")))
          = str "creating role at \"/v1/auth/approle/role/a\\\"b\": boom"
      ∧ ¬ (str "/v1/auth/approle/role/" ++ str "a\"b")
          <:+: str "creating role at \"/v1/auth/approle/role/a\\\"b\": boom" := by
  refine ⟨?_, by decide, by decide⟩
  rw [CreateAppRole_err]
  rfl

theorem Quote_rolePath_text (tbl : Nat → Bool) (text : String)
    (h : ∀ ch ∈ text.data, IsPrint tbl ch.toNat = true ∧ ch.toNat ≠ 0x22 ∧ ch.toNat ≠ 0x5C) :
    Quote tbl (rolePath (str text)) = [0x22] ++ rolePath (str text) ++ [0x22] := by
  have h1 : quoteLoop tbl 0 (str text ++ []) = str text ++ quoteLoop tbl 0 [] :=
    quoteLoop_str tbl text.data h []
  have h0 : quoteLoop tbl 0 [] = [] := rfl
  rw [h0, List.append_nil] at h1
  unfold Quote rolePath
  rw [quoteLoop_rolePrefix, h1]

/-- C4, amended: for every `AppRoleOptions` and every error `e` with which the
transport rejects the write, `CreateAppRole` returns an error that wraps `e`:
it is the `withStack` around the `withMessage` whose cause is `e`, so that `e`
is reached by two steps of `Unwrap()` and `errors.Cause` of it is
`errors.Cause` of `e`; its message is `creating role at `, the path
`/v1/auth/approle/role/` followed by the name in the quoted form that `%q`
prints, `: ` and the message of `e`; the message contains the path followed by
the name exactly as given whenever the name is the UTF-8 encoding of printable
characters other than the double quote and the backslash. -/
theorem CreateAppRole_write_failure (tbl : Nat → Bool) (c : client) (r : AppRoleOptions)
    (body : JSONObject) (e : GoError) (hb : Marshal r = .ok body)
    (h : c.post (str "/v1/auth/approle/role/" ++ r.RoleName) body = some e) :
    ∃ err, (CreateAppRole tbl c r).err = some err
      ∧ (∃ inner, err.Unwrap = some inner ∧ inner.Unwrap = some e)
      ∧ Cause err = Cause e
      ∧ err.Error = str "creating role at "
          ++ Quote tbl (str "/v1/auth/approle/role/" ++ r.RoleName) ++ str ": " ++ e.Error
      ∧ (∀ text : String, r.RoleName = str text →
          (∀ ch ∈ text.data, IsPrint tbl ch.toNat = true ∧ ch.toNat ≠ 0x22 ∧ ch.toNat ≠ 0x5C) →
          (str "/v1/auth/approle/role/" ++ r.RoleName) <:+: err.Error) := by
  have hb' : structEncoder (typeFields r.fields) = body :=
    Except.ok.inj ((Marshal_eq r).symm.trans hb)
  subst hb'
  refine ⟨.withStack
    (.withMessage e (str "creating role at " ++ Quote tbl (rolePath r.RoleName))), ?_,
    ⟨_, rfl, rfl⟩, rfl, rfl, ?_⟩
  · rw [CreateAppRole_err]
    show Option.map _ (c.post (str "/v1/auth/approle/role/" ++ r.RoleName) _) = _
    rw [h]
    rfl
  · intro text ht hp
    show _ <:+: str "creating role at " ++ Quote tbl (rolePath r.RoleName) ++ str ": " ++ e.Error
    rw [ht, Quote_rolePath_text tbl text hp]
    exact ⟨str "creating role at " ++ [0x22], [0x22] ++ str ": " ++ e.Error, by
      simp [rolePath, List.append_assoc]⟩

/-- C4, amended, at the name `ci-runner` and a transport that rejects the write
with `boom`. -/
theorem CreateAppRole_write_failure_witness :
    Marshal { RoleName := str "ci-runner" } = .ok [(str "RoleName", .string (str "ci-runner"))]
      ∧ (failWith (.base (str "boom"))).post (str "/v1/auth/approle/role/" ++ str "ci-runner")
          [(str "RoleName", .string (str "ci-runner"))] = some (.base (str "boom"))
      ∧ ∃ err, (CreateAppRole noTable (failWith (.base (str "boom")))
            { RoleName := str "ci-runner" }).err = some err
        ∧ (∃ inner, err.Unwrap = some inner ∧ inner.Unwrap = some (.base (str "boom")))
        ∧ Cause err = Cause (.base (str "boom"))
        ∧ err.Error = str "creating role at "
            ++ Quote noTable (str "/v1/auth/approle/role/" ++ str "ci-runner") ++ str ": "
            ++ GoError.Error (.base (str "boom"))
        ∧ (str "/v1/auth/approle/role/" ++ str "ci-runner") <:+: err.Error := by
  obtain ⟨err, h1, h2, hc, h3, h4⟩ := CreateAppRole_write_failure noTable
    (failWith (.base (str "boom"))) { RoleName := str "ci-runner" }
    [(str "RoleName", .string (str "ci-runner"))] (.base (str "boom"))
    (Marshal_only_name (str "ci-runner")) rfl
  exact ⟨Marshal_only_name (str "ci-runner"), rfl, err, h1, h2, hc, h3,
    h4 "ci-runner" rfl (by decide)⟩

end vaultapi
